import Mathlib

/-!
Verification of the `Foam::profileData` class of turbinesFoam
(src/fvOptions/actuatorLineSource/actuatorLineElement/profileData/profileData.H).

Only the header (declarations and doc comments) of the class is present in the
repository snapshot; the implementation file profileData.C is absent.  The
definitions below therefore embed the behaviour the specification assigns to
each declared member function, using exact rationals for the scalar type of
the table algebra and real numbers for the trigonometric coordinate
transforms.
-/

namespace ProfileData

/-- Linear interpolation on one segment: the value at `xNew` of the straight
line through `(x0, y0)` and `(x1, y1)`,
`y0 + (y1 - y0) * (xNew - x0) / (x1 - x0)`. -/
def interpSeg (x0 y0 x1 y1 xNew : ℚ) : ℚ :=
  y0 + (y1 - y0) * (xNew - x0) / (x1 - x0)

/-- Modelled from the spec: `profileData::interpolate` (declared at
profileData.H lines 166-171; profileData.C is not in the snapshot).
Piecewise-linear lookup over an ordered table, per the spec's policy:
a one-element table returns its single y with no extrapolation; a query below
the first x or above the last x is extrapolated linearly with the nearest edge
segment's slope; otherwise the bracketing segment `xOld[i] ≤ xNew ≤ xOld[i+1]`
is located by linear scan and interpolated linearly; mismatched or empty
tables are a caller contract violation (modelled by the junk value 0). -/
def interpolate (xNew : ℚ) : List ℚ → List ℚ → ℚ
  | [_], [y0] => y0
  | [x0, x1], y0 :: y1 :: _ => interpSeg x0 y0 x1 y1 xNew
  | x0 :: x1 :: x2 :: xs, y0 :: y1 :: ys =>
      if xNew ≤ x1 then interpSeg x0 y0 x1 y1 xNew
      else interpolate xNew (x1 :: x2 :: xs) (y1 :: ys)
  | _, _ => 0

example : interpolate (5/2) [-5, 0, 5, 10, 15] [-1/2, 0, 11/20, 1, 9/10] = 11/40 := by
  norm_num [interpolate, interpSeg]

example : interpolate 20 [0, 5, 10] [0, 1, 3] = 7 := by norm_num [interpolate, interpSeg]

example : interpolate (-5) [0, 5, 10] [0, 1, 3] = -1 := by norm_num [interpolate, interpSeg]

/-- Entries of a strictly increasing list are strictly ordered by index. -/
theorem chain_getD_lt {xs : List ℚ} (h : List.Chain' (· < ·) xs) {i j : ℕ}
    (hij : i < j) (hj : j < xs.length) : xs.getD i 0 < xs.getD j 0 := by
  have hp := List.chain'_iff_pairwise.mp h
  have hi : i < xs.length := lt_trans hij hj
  have hg := List.pairwise_iff_get.mp hp ⟨i, hi⟩ ⟨j, hj⟩ hij
  rw [List.getD_eq_getElem _ _ hi, List.getD_eq_getElem _ _ hj]
  simpa using hg

/-- On a strictly increasing table of matching lengths, `interpolate` agrees
with the one-segment linear formula on any bracketing segment. -/
theorem interpolate_bracket :
    ∀ (xs ys : List ℚ) (i : ℕ) (xNew : ℚ),
      xs.length = ys.length →
      List.Chain' (· < ·) xs →
      i + 1 < xs.length →
      xs.getD i 0 ≤ xNew →
      xNew ≤ xs.getD (i + 1) 0 →
      interpolate xNew xs ys =
        interpSeg (xs.getD i 0) (ys.getD i 0) (xs.getD (i + 1) 0) (ys.getD (i + 1) 0)
          xNew := by
  intro xs
  induction xs with
  | nil => intro ys i xNew _ _ hi _ _; simp at hi
  | cons x0 rest ih =>
    intro ys i xNew hlen hmono hi hlo hhi
    match rest, ys, i with
    | [], _, _ => simp at hi
    | x1 :: rest2, [], _ => simp at hlen
    | x1 :: rest2, [y0], _ => simp at hlen
    | [x1], y0 :: y1 :: ys', 0 =>
        simp only [interpolate, List.getD_cons_zero, List.getD_cons_succ]
    | [x1], y0 :: y1 :: ys', j + 1 =>
        simp at hi; omega
    | x1 :: x2 :: xs2, y0 :: y1 :: ys', 0 =>
        simp only [List.getD_cons_zero, List.getD_cons_succ] at hlo hhi ⊢
        simp only [interpolate, if_pos hhi]
    | x1 :: x2 :: xs2, y0 :: y1 :: ys', j + 1 =>
        simp only [List.getD_cons_succ] at hlo hhi ⊢
        by_cases hc : xNew ≤ x1
        · -- only possible when the query sits exactly on the shared knot x1
          match j with
          | 0 =>
              simp only [List.getD_cons_zero, List.getD_cons_succ] at hlo hhi ⊢
              have hx1 : xNew = x1 := le_antisymm hc hlo
              have h01 : x0 < x1 := (List.chain'_cons.mp hmono).1
              have h10 : x1 - x0 ≠ 0 := sub_ne_zero.mpr h01.ne'
              subst hx1
              simp only [interpolate, if_pos le_rfl, interpSeg, sub_self,
                mul_zero, zero_div, add_zero]
              field_simp
          | k + 1 =>
              exfalso
              have htail : List.Chain' (· < ·) (x1 :: x2 :: xs2) :=
                (List.chain'_cons.mp hmono).2
              have hlt : x1 < (x1 :: x2 :: xs2).getD (k + 1) 0 := by
                have := chain_getD_lt htail (i := 0) (j := k + 1)
                  (Nat.succ_pos k) (by simp at hi ⊢; omega)
                simpa using this
              simp only [List.getD_cons_succ] at hlo
              have : x1 < xNew := lt_of_lt_of_le hlt hlo
              linarith
        · have hgt : x1 < xNew := lt_of_not_le hc
          have hrec : interpolate xNew (x0 :: x1 :: x2 :: xs2) (y0 :: y1 :: ys') =
              interpolate xNew (x1 :: x2 :: xs2) (y1 :: ys') := by
            simp only [interpolate, if_neg hc]
          rw [hrec]
          exact ih (y1 :: ys') j xNew (by simp at hlen ⊢; omega)
            (List.chain'_cons.mp hmono).2 (by simp at hi ⊢; omega) hlo hhi

/-- Evaluating the segment formula at the left knot returns the left
ordinate. -/
theorem interpSeg_left (x0 y0 x1 y1 : ℚ) : interpSeg x0 y0 x1 y1 x0 = y0 := by
  simp [interpSeg]

/-- Evaluating the segment formula at the right knot returns the right
ordinate, provided the segment is nondegenerate. -/
theorem interpSeg_right (x0 y0 x1 y1 : ℚ) (h : x1 - x0 ≠ 0) :
    interpSeg x0 y0 x1 y1 x1 = y1 := by
  field_simp [interpSeg]

/-- Knot exactness: querying `interpolate` at a tabulated abscissa returns the
tabulated ordinate with no error. -/
theorem interpolate_knot (xs ys : List ℚ) (i : ℕ)
    (hlen : xs.length = ys.length) (hmono : List.Chain' (· < ·) xs)
    (hi : i < xs.length) :
    interpolate (xs.getD i 0) xs ys = ys.getD i 0 := by
  match i with
  | 0 =>
    match xs, ys with
    | [], _ => simp at hi
    | [x0], [] => simp at hlen
    | [x0], [y0] => simp [interpolate]
    | [x0], y0 :: y1 :: ys2 => simp at hlen
    | x0 :: x1 :: xs2, [] => simp at hlen
    | x0 :: x1 :: xs2, [y0] => simp at hlen
    | x0 :: x1 :: xs2, y0 :: y1 :: ys2 =>
        rw [interpolate_bracket (x0 :: x1 :: xs2) (y0 :: y1 :: ys2) 0 _ hlen hmono
          (by simp) le_rfl
          (le_of_lt (chain_getD_lt hmono Nat.zero_lt_one (by simp)))]
        exact interpSeg_left _ _ _ _
  | j + 1 =>
    have hjlt := chain_getD_lt hmono (Nat.lt_succ_self j) hi
    rw [interpolate_bracket xs ys j _ hlen hmono hi (le_of_lt hjlt) le_rfl]
    exact interpSeg_right _ _ _ _ (sub_ne_zero.mpr hjlt.ne')

/-- A query below the first abscissa is extrapolated with the first segment's
slope. -/
theorem interpolate_below (x0 x1 : ℚ) (xs : List ℚ) (y0 y1 : ℚ) (ys : List ℚ)
    (xNew : ℚ) (hmono : List.Chain' (· < ·) (x0 :: x1 :: xs)) (h : xNew < x0) :
    interpolate xNew (x0 :: x1 :: xs) (y0 :: y1 :: ys) =
      interpSeg x0 y0 x1 y1 xNew := by
  match xs with
  | [] => simp [interpolate]
  | x2 :: xs2 =>
      have h01 : x0 < x1 := (List.chain'_cons.mp hmono).1
      have hle : xNew ≤ x1 := le_of_lt (lt_trans h h01)
      simp [interpolate, if_pos hle]

/-- A query above the last abscissa is extrapolated with the last segment's
slope. -/
theorem interpolate_above :
    ∀ (xs ys : List ℚ) (xNew : ℚ),
      xs.length = ys.length → 2 ≤ xs.length →
      List.Chain' (· < ·) xs →
      xs.getD (xs.length - 1) 0 < xNew →
      interpolate xNew xs ys =
        interpSeg (xs.getD (xs.length - 2) 0) (ys.getD (xs.length - 2) 0)
          (xs.getD (xs.length - 1) 0) (ys.getD (xs.length - 1) 0) xNew := by
  intro xs
  induction xs with
  | nil => intro ys xNew _ h2 _ _; simp at h2
  | cons x0 rest ih =>
    intro ys xNew hlen h2 hmono hlast
    match rest, ys with
    | [], _ => simp at h2
    | x1 :: rest2, [] => simp at hlen
    | x1 :: rest2, [y0] => simp at hlen
    | [x1], y0 :: y1 :: ys' => simp [interpolate]
    | x1 :: x2 :: xs2, y0 :: y1 :: ys' =>
        have e1 : (x0 :: x1 :: x2 :: xs2).length - 1 =
            ((x1 :: x2 :: xs2).length - 1) + 1 := by
          simp only [List.length_cons]; omega
        have e2 : (x0 :: x1 :: x2 :: xs2).length - 2 =
            ((x1 :: x2 :: xs2).length - 2) + 1 := by
          simp only [List.length_cons]; omega
        rw [e1, List.getD_cons_succ] at hlast
        rw [e1, e2, List.getD_cons_succ, List.getD_cons_succ,
          List.getD_cons_succ, List.getD_cons_succ]
        have htail : List.Chain' (· < ·) (x1 :: x2 :: xs2) :=
          (List.chain'_cons.mp hmono).2
        have hx1last : x1 < (x1 :: x2 :: xs2).getD ((x1 :: x2 :: xs2).length - 1) 0 := by
          have := chain_getD_lt htail (i := 0)
            (j := (x1 :: x2 :: xs2).length - 1)
            (by simp only [List.length_cons]; omega)
            (by simp only [List.length_cons]; omega)
          simpa using this
        have hgt : x1 < xNew := lt_trans hx1last hlast
        have hrec : interpolate xNew (x0 :: x1 :: x2 :: xs2) (y0 :: y1 :: ys') =
            interpolate xNew (x1 :: x2 :: xs2) (y1 :: ys') := by
          simp only [interpolate, if_neg (not_le.mpr hgt)]
        rw [hrec]
        exact ih (y1 :: ys') xNew (by simp at hlen ⊢; omega)
          (by simp only [List.length_cons]; omega) htail hlast

/-- C1: for every strictly increasing `xOld` of length ≥ 2, matching `yOld`,
and query bracketed by segment `i` (`xOld[i] ≤ xNew ≤ xOld[i+1]`, the segment
the linear scan locates), `interpolate` returns
`yOld[i] + (yOld[i+1]-yOld[i]) * (xNew-xOld[i])/(xOld[i+1]-xOld[i])`; in
particular every knot query reproduces the tabulated ordinate exactly. -/
theorem C1_interpolate_bracketed_segment_and_knot_exact :
    ∀ (xs ys : List ℚ) (xNew : ℚ) (i : ℕ),
      xs.length = ys.length → 2 ≤ xs.length → List.Chain' (· < ·) xs →
      (i + 1 < xs.length → xs.getD i 0 ≤ xNew → xNew ≤ xs.getD (i + 1) 0 →
        interpolate xNew xs ys =
          ys.getD i 0 + (ys.getD (i + 1) 0 - ys.getD i 0) *
            (xNew - xs.getD i 0) / (xs.getD (i + 1) 0 - xs.getD i 0)) ∧
      (i < xs.length → interpolate (xs.getD i 0) xs ys = ys.getD i 0) := by
  intro xs ys xNew i hlen _ hmono
  constructor
  · intro hi hlo hhi
    exact interpolate_bracket xs ys i xNew hlen hmono hi hlo hhi
  · intro hi
    exact interpolate_knot xs ys i hlen hmono hi

/-- Concrete instantiation of the C1 theorem on the spec's five-row table:
`interpolate(2.5°)` on segment 1 gives `0.275`, and the knot query at `5°`
returns the tabulated `0.55` exactly. -/
theorem C1_witness :
    interpolate (5/2) [-5, 0, 5, 10, 15] [-1/2, 0, 11/20, 1, 9/10] =
        0 + (11/20 - 0) * (5/2 - 0) / (5 - 0) ∧
      interpolate 5 [-5, 0, 5, 10, 15] [-1/2, 0, 11/20, 1, 9/10] = 11/20 := by
  have h := C1_interpolate_bracketed_segment_and_knot_exact
    [-5, 0, 5, 10, 15] [-1/2, 0, 11/20, 1, 9/10] (5/2) 1
    (by norm_num) (by norm_num) (by norm_num [List.chain'_cons])
  have h2 := C1_interpolate_bracketed_segment_and_knot_exact
    [-5, 0, 5, 10, 15] [-1/2, 0, 11/20, 1, 9/10] (5/2) 2
    (by norm_num) (by norm_num) (by norm_num [List.chain'_cons])
  constructor
  · have hb := h.1 (by norm_num)
      (by norm_num [List.getD_cons_succ, List.getD_cons_zero])
      (by norm_num [List.getD_cons_succ, List.getD_cons_zero])
    simpa [List.getD_cons_succ, List.getD_cons_zero] using hb
  · have hk := h2.2 (by norm_num)
    simpa [List.getD_cons_succ, List.getD_cons_zero] using hk

/-- C7: a query below the first abscissa (resp. above the last) is returned
by linear extrapolation with the first (resp. last) segment's slope — never a
flat clamp to the boundary ordinate. -/
theorem C7_interpolate_edge_extrapolation :
    ∀ (xs ys : List ℚ) (xNew : ℚ),
      xs.length = ys.length → 2 ≤ xs.length → List.Chain' (· < ·) xs →
      (xNew < xs.getD 0 0 →
        interpolate xNew xs ys =
          ys.getD 0 0 + (ys.getD 1 0 - ys.getD 0 0) *
            (xNew - xs.getD 0 0) / (xs.getD 1 0 - xs.getD 0 0)) ∧
      (xs.getD (xs.length - 1) 0 < xNew →
        interpolate xNew xs ys =
          ys.getD (xs.length - 2) 0 +
            (ys.getD (xs.length - 1) 0 - ys.getD (xs.length - 2) 0) *
            (xNew - xs.getD (xs.length - 2) 0) /
            (xs.getD (xs.length - 1) 0 - xs.getD (xs.length - 2) 0)) := by
  intro xs ys xNew hlen h2 hmono
  constructor
  · intro h
    match xs, ys with
    | [], _ => simp at h2
    | [x0], _ => simp at h2
    | x0 :: x1 :: xs2, [] => simp at hlen
    | x0 :: x1 :: xs2, [y0] => simp at hlen
    | x0 :: x1 :: xs2, y0 :: y1 :: ys2 =>
        have hb := interpolate_below x0 x1 xs2 y0 y1 ys2 xNew hmono
          (by simpa using h)
        simpa [interpSeg, List.getD_cons_succ, List.getD_cons_zero] using hb
  · intro h
    exact interpolate_above xs ys xNew hlen h2 hmono h

/-- Concrete instantiation of the C7 theorem: on the table
x = [0,5,10], y = [0,1,3], the query −5 extrapolates with the first segment's
slope to −1 and the query 20 extrapolates with the last segment's slope to 7
(a flat clamp would return 0 and 3 respectively). -/
theorem C7_witness :
    interpolate (-5) [0, 5, 10] [0, 1, 3] = -1 ∧
      interpolate 20 [0, 5, 10] [0, 1, 3] = 7 := by
  have hlo := (C7_interpolate_edge_extrapolation [0, 5, 10] [0, 1, 3] (-5)
    (by norm_num) (by norm_num) (by norm_num [List.chain'_cons])).1
    (by norm_num [List.getD_cons_zero])
  have hhi := (C7_interpolate_edge_extrapolation [0, 5, 10] [0, 1, 3] 20
    (by norm_num) (by norm_num) (by norm_num [List.chain'_cons])).2
    (by norm_num [List.getD_cons_succ, List.getD_cons_zero])
  norm_num [List.getD_cons_succ, List.getD_cons_zero] at hlo hhi
  exact ⟨hlo, hhi⟩

/-- C8: a one-element table returns its single ordinate for every query: no
extrapolation is attempted and the division-by-segment-length branch is
unreachable. -/
theorem C8_interpolate_degenerate_table (xNew x0 y0 : ℚ) :
    interpolate xNew [x0] [y0] = y0 := rfl

/-- The active single-Reynolds-number coefficient table of a profile: the
angle-of-attack list (deg) together with the lift, drag and moment
coefficient lists at the current Reynolds number (fields
`angleOfAttackList_`, `liftCoefficientList_`, `dragCoefficientList_`,
`momentCoefficientList_`, profileData.H lines 113-123). -/
structure SingleTable where
  angleOfAttackList : List ℚ
  liftCoefficientList : List ℚ
  dragCoefficientList : List ℚ
  momentCoefficientList : List ℚ

/-- Modelled from the spec: `profileData::liftCoefficient` (profileData.H
lines 333-334; profileData.C absent) delegates to the 1-D interpolator over
the active curve (§4.6). -/
def liftCoefficient (p : SingleTable) (angleOfAttackDeg : ℚ) : ℚ :=
  interpolate angleOfAttackDeg p.angleOfAttackList p.liftCoefficientList

/-- Modelled from the spec: `profileData::dragCoefficient` (profileData.H
lines 336-337), the interpolated drag lookup over the active curve (§4.6). -/
def dragCoefficient (p : SingleTable) (angleOfAttackDeg : ℚ) : ℚ :=
  interpolate angleOfAttackDeg p.angleOfAttackList p.dragCoefficientList

/-- Modelled from the spec: `profileData::momentCoefficient` (profileData.H
lines 339-340), the interpolated moment lookup over the active curve
(§4.6). -/
def momentCoefficient (p : SingleTable) (angleOfAttackDeg : ℚ) : ℚ :=
  interpolate angleOfAttackDeg p.angleOfAttackList p.momentCoefficientList

/-- Modelled from the spec: `calcStaticStallAngle` (profileData.H lines
173-174; implementation absent): scanning the lift curve from low to high
angle, return the angle of the first point whose successor has strictly
smaller lift (the first local maximum); if lift never decreases, the last
angle — the global maximum (§4.3). -/
def calcStaticStallAngle : List ℚ → List ℚ → ℚ
  | a0 :: a1 :: as, c0 :: c1 :: cs =>
      if c1 < c0 then a0 else calcStaticStallAngle (a1 :: as) (c1 :: cs)
  | [a0], _ => a0
  | _, _ => 0

/-- Modelled from the spec: `calcZeroLiftAngleOfAttack` (profileData.H lines
179-180; implementation absent): locate the bracketing sign-change interval
in the lift list by linear scan and linearly interpolate the angle at
lift = 0 (§4.3). -/
def calcZeroLiftAngleOfAttack : List ℚ → List ℚ → ℚ
  | a0 :: a1 :: as, c0 :: c1 :: cs =>
      if c0 ≤ 0 ∧ 0 ≤ c1 then interpSeg c0 a0 c1 a1 0
      else calcZeroLiftAngleOfAttack (a1 :: as) (c1 :: cs)
  | _, _ => 0

/-- Degrees to radians, as used by every trigonometric conversion. -/
noncomputable def degToRad (deg : ℝ) : ℝ := deg * Real.pi / 180

/-- Modelled from the spec: `convertToCN` (profileData.H lines 212-217):
`CN = CL cos α + CD sin α`, α the angle of attack in radians (§4.6). -/
noncomputable def convertToCN (cl cd angleOfAttackDeg : ℝ) : ℝ :=
  cl * Real.cos (degToRad angleOfAttackDeg) +
    cd * Real.sin (degToRad angleOfAttackDeg)

/-- Modelled from the spec: `convertToCC` (profileData.H lines 219-225):
`CC = -CL sin α + CD cos α` (§4.6). -/
noncomputable def convertToCC (cl cd angleOfAttackDeg : ℝ) : ℝ :=
  -cl * Real.sin (degToRad angleOfAttackDeg) +
    cd * Real.cos (degToRad angleOfAttackDeg)

/-- Modelled from the spec: `convertToCL` (profileData.H lines 227-233), the
matching inverse rotation from normal/chordwise to lift (§4.6). -/
noncomputable def convertToCL (cn cc angleOfAttackDeg : ℝ) : ℝ :=
  cn * Real.cos (degToRad angleOfAttackDeg) -
    cc * Real.sin (degToRad angleOfAttackDeg)

/-- Modelled from the spec: `convertToCD` (profileData.H lines 235-241), the
matching inverse rotation from normal/chordwise to drag (§4.6). -/
noncomputable def convertToCD (cn cc angleOfAttackDeg : ℝ) : ℝ :=
  cn * Real.sin (degToRad angleOfAttackDeg) +
    cc * Real.cos (degToRad angleOfAttackDeg)

/-- Modelled from the spec: `normalCoefficient` (profileData.H lines
342-343) first obtains lift and drag at the query angle, then applies the
rotation `convertToCN` (§4.6). -/
noncomputable def normalCoefficient (p : SingleTable) (angleOfAttackDeg : ℚ) : ℝ :=
  convertToCN (liftCoefficient p angleOfAttackDeg)
    (dragCoefficient p angleOfAttackDeg) (angleOfAttackDeg : ℝ)

/-- Modelled from the spec: `chordwiseCoefficient` (profileData.H lines
345-346) first obtains lift and drag at the query angle, then applies the
rotation `convertToCC` (§4.6). -/
noncomputable def chordwiseCoefficient (p : SingleTable) (angleOfAttackDeg : ℚ) : ℝ :=
  convertToCC (liftCoefficient p angleOfAttackDeg)
    (dragCoefficient p angleOfAttackDeg) (angleOfAttackDeg : ℝ)

/-- The stored multiple-Reynolds-number dataset (fields `ReList_`,
`liftCoefficientLists_`, `dragCoefficientLists_`, `momentCoefficientLists_`,
profileData.H lines 86-114): the Reynolds-number list and, per Reynolds
number, one coefficient list over the shared angle-of-attack list.  Per the
spec's §9 resolution, all curves are taken on a common angle axis. -/
structure MultiReTable where
  ReList : List ℚ
  angleOfAttackList : List ℚ
  liftCoefficientLists : List (List ℚ)
  dragCoefficientLists : List (List ℚ)
  momentCoefficientLists : List (List ℚ)

/-- The coefficient values of all stored curves at angle index `j`: the
ordinate list handed to the interpolator when Reynolds number is the
interpolation axis (§4.5). -/
def coeffColumn (lists : List (List ℚ)) (j : ℕ) : List ℚ :=
  lists.map (fun c => c.getD j 0)

/-- Modelled from the spec: the per-coefficient work of `interpCoeffLists`
(profileData.H lines 188-190; implementation absent): for every angle
sample, invoke the 1-D interpolator with `ReList_` as abscissa and the
stored curves' values at that angle as ordinate (§4.5). -/
def interpCoeffList (Re : ℚ) (ReList : List ℚ) (nAngles : ℕ)
    (lists : List (List ℚ)) : List ℚ :=
  (List.range nAngles).map (fun j => interpolate Re ReList (coeffColumn lists j))

/-- Modelled from the spec: `interpCoeffLists` (profileData.H lines 188-190)
builds the active single-Re coefficient lists of a multi-Re profile at
Reynolds number `Re` (§4.5). -/
def interpCoeffLists (m : MultiReTable) (Re : ℚ) : SingleTable :=
  { angleOfAttackList := m.angleOfAttackList
    liftCoefficientList :=
      interpCoeffList Re m.ReList m.angleOfAttackList.length m.liftCoefficientLists
    dragCoefficientList :=
      interpCoeffList Re m.ReList m.angleOfAttackList.length m.dragCoefficientLists
    momentCoefficientList :=
      interpCoeffList Re m.ReList m.angleOfAttackList.length m.momentCoefficientLists }

/-- A multi-Re profile's mutable state: the stored family, the current
Reynolds number `Re_` and the active curve derived from it. -/
structure MultiReProfile where
  multi : MultiReTable
  Re : ℚ
  active : SingleTable

/-- Modelled from the spec: `updateRe` (profileData.H lines 378-379;
implementation absent) stores the new Reynolds number and recomputes the
active curve wholesale via `interpCoeffLists` (§4.5). -/
def updateRe (s : MultiReProfile) (Re : ℚ) : MultiReProfile :=
  { multi := s.multi, Re := Re, active := interpCoeffLists s.multi Re }

/-- The spec's concrete five-row example table
{(-5°,-0.5,0.02,0.0), (0°,0.0,0.01,0.0), (5°,0.55,0.015,-0.02),
(10°,1.0,0.03,-0.05), (15°,0.9,0.08,-0.08)}. -/
def exampleTable : SingleTable :=
  { angleOfAttackList := [-5, 0, 5, 10, 15]
    liftCoefficientList := [-1/2, 0, 11/20, 1, 9/10]
    dragCoefficientList := [1/50, 1/100, 3/200, 3/100, 2/25]
    momentCoefficientList := [0, 0, -1/50, -1/20, -2/25] }

/-- C6: on the spec's concrete table, `liftCoefficient(2.5°)` interpolates
between rows 2 and 3 to 0.275, the zero-lift angle of attack is exactly 0°,
and the static stall angle is 10° (maximum lift before the decrease at
15°). -/
theorem C6_concrete_five_row_scenario :
    liftCoefficient exampleTable (5/2) = 11/40 ∧
      calcZeroLiftAngleOfAttack exampleTable.angleOfAttackList
          exampleTable.liftCoefficientList = 0 ∧
      calcStaticStallAngle exampleTable.angleOfAttackList
          exampleTable.liftCoefficientList = 10 := by
  refine ⟨?_, ?_, ?_⟩ <;>
    norm_num [liftCoefficient, exampleTable, interpolate, interpSeg,
      calcZeroLiftAngleOfAttack, calcStaticStallAngle]

/-- C5: the normal and chordwise coefficient queries are exactly the
composition of the active-curve lift/drag lookups with the aerodynamic
rotation `CN = CL cos α + CD sin α`, `CC = -CL sin α + CD cos α` at the query
angle converted to radians. -/
theorem C5_normal_chordwise_compose_lookup_rotation (p : SingleTable) (a : ℚ) :
    normalCoefficient p a =
        (liftCoefficient p a : ℝ) * Real.cos (degToRad (a : ℝ)) +
          (dragCoefficient p a : ℝ) * Real.sin (degToRad (a : ℝ)) ∧
      chordwiseCoefficient p a =
        -(liftCoefficient p a : ℝ) * Real.sin (degToRad (a : ℝ)) +
          (dragCoefficient p a : ℝ) * Real.cos (degToRad (a : ℝ)) :=
  ⟨rfl, rfl⟩

/-- C4: over exact reals, for every lift/drag pair and every angle in
[-180°, 180°], the normal/chordwise transforms followed by the inverse
transforms return the original lift and drag exactly; all four maps are pure
trigonometric functions with no table lookup. -/
theorem C4_rotation_round_trip (cl cd angleOfAttackDeg : ℝ)
    (h1 : -180 ≤ angleOfAttackDeg) (h2 : angleOfAttackDeg ≤ 180) :
    convertToCL (convertToCN cl cd angleOfAttackDeg)
        (convertToCC cl cd angleOfAttackDeg) angleOfAttackDeg = cl ∧
      convertToCD (convertToCN cl cd angleOfAttackDeg)
        (convertToCC cl cd angleOfAttackDeg) angleOfAttackDeg = cd := by
  unfold convertToCL convertToCD convertToCN convertToCC
  constructor
  · linear_combination cl * Real.sin_sq_add_cos_sq (degToRad angleOfAttackDeg)
  · linear_combination cd * Real.sin_sq_add_cos_sq (degToRad angleOfAttackDeg)

/-- Concrete instantiation of the C4 theorem at CL = 1, CD = 2, angle 30°. -/
theorem C4_witness :
    convertToCL (convertToCN 1 2 30) (convertToCC 1 2 30) 30 = 1 ∧
      convertToCD (convertToCN 1 2 30) (convertToCC 1 2 30) 30 = 2 :=
  C4_rotation_round_trip 1 2 30 (by norm_num) (by norm_num)

/-- Element access into an interpolated active coefficient list: entry `j` is
the interpolation, with Reynolds number as abscissa, of the stored curves'
values at angle index `j`. -/
theorem interpCoeffList_getD (Re : ℚ) (ReList : List ℚ) (n j : ℕ)
    (lists : List (List ℚ)) (hj : j < n) :
    (interpCoeffList Re ReList n lists).getD j 0 =
      interpolate Re ReList (coeffColumn lists j) := by
  unfold interpCoeffList
  rw [List.getD_eq_getElem _ _ (by simpa using hj)]
  simp

/-- An interpolated active coefficient list has one entry per angle sample. -/
theorem interpCoeffList_length (Re : ℚ) (ReList : List ℚ) (n : ℕ)
    (lists : List (List ℚ)) : (interpCoeffList Re ReList n lists).length = n := by
  simp [interpCoeffList]

/-- Querying the active curve of a multi-Re profile at tabulated angle `j`
returns the Reynolds-number interpolation of the stored curves' values at
that angle. -/
theorem active_lift_at_knot (m : MultiReTable) (Re : ℚ) (j : ℕ)
    (hmono : List.Chain' (· < ·) m.angleOfAttackList)
    (hj : j < m.angleOfAttackList.length) :
    liftCoefficient (interpCoeffLists m Re) (m.angleOfAttackList.getD j 0) =
      interpolate Re m.ReList (coeffColumn m.liftCoefficientLists j) := by
  unfold liftCoefficient interpCoeffLists
  rw [interpolate_knot _ _ j (by rw [interpCoeffList_length]) hmono hj]
  exact interpCoeffList_getD _ _ _ _ _ hj

/-- Mapping `getD` over the index range of a list reproduces the list. -/
theorem map_getD_range (l : List ℚ) :
    (List.range l.length).map (fun j => l.getD j 0) = l := by
  apply List.ext_getElem
  · simp
  · intro i h1 h2
    simp only [List.getElem_map, List.getElem_range]
    exact List.getD_eq_getElem _ _ h2

/-- C2 (amended): after `updateRe(Re2)` on a multi-Re profile whose active
curve was built for the prior Reynolds number, the lift query at every
tabulated angle equals the 1-D interpolation, with Reynolds number as
abscissa, of the stored curves' values at that angle (clamped to the end
segments per the interpolator's policy when `Re2` is out of range); and the
post-update result at a tabulated angle differs from the pre-update result
exactly when those two Reynolds-number interpolations differ — a different
bracketing alone does not force a difference. -/
theorem C2_updateRe_reinterpolates_active_curve
    (s : MultiReProfile) (Re2 : ℚ) (j : ℕ)
    (hmono : List.Chain' (· < ·) s.multi.angleOfAttackList)
    (hj : j < s.multi.angleOfAttackList.length)
    (hactive : s.active = interpCoeffLists s.multi s.Re) :
    liftCoefficient (updateRe s Re2).active
        (s.multi.angleOfAttackList.getD j 0) =
      interpolate Re2 s.multi.ReList
        (coeffColumn s.multi.liftCoefficientLists j) ∧
    (liftCoefficient (updateRe s Re2).active
          (s.multi.angleOfAttackList.getD j 0) ≠
        liftCoefficient s.active (s.multi.angleOfAttackList.getD j 0) ↔
      interpolate Re2 s.multi.ReList
          (coeffColumn s.multi.liftCoefficientLists j) ≠
        interpolate s.Re s.multi.ReList
          (coeffColumn s.multi.liftCoefficientLists j)) := by
  have hpost : liftCoefficient (updateRe s Re2).active
      (s.multi.angleOfAttackList.getD j 0) =
      interpolate Re2 s.multi.ReList
        (coeffColumn s.multi.liftCoefficientLists j) :=
    active_lift_at_knot s.multi Re2 j hmono hj
  have hpre : liftCoefficient s.active (s.multi.angleOfAttackList.getD j 0) =
      interpolate s.Re s.multi.ReList
        (coeffColumn s.multi.liftCoefficientLists j) := by
    rw [hactive]
    exact active_lift_at_knot s.multi s.Re j hmono hj
  exact ⟨hpost, by rw [hpost, hpre]⟩

/-- A three-Reynolds-number family whose single-angle lift column [0, 1, 0]
makes the Reynolds interpolations at Re = 1/2 and Re = 3/2 coincide. -/
def tentTable : MultiReTable :=
  { ReList := [0, 1, 2]
    angleOfAttackList := [0]
    liftCoefficientLists := [[0], [1], [0]]
    dragCoefficientLists := [[0], [0], [0]]
    momentCoefficientLists := [[0], [0], [0]] }

/-- The tent-column profile initialised at Re = 1/2. -/
def tentProfile : MultiReProfile :=
  { multi := tentTable, Re := 1/2, active := interpCoeffLists tentTable (1/2) }

/-- C2 as stated is false at a concrete input: the prior Re = 1/2 lies in the
first `ReList_` segment [0, 1] while Re2 = 3/2 lies in the second [1, 2] —
not bracketed identically — yet the post-update lift query at the tabulated
angle 0° equals the pre-update result (both are 1/2). -/
theorem C2_counterexample :
    (tentTable.ReList.getD 0 0 ≤ 1/2 ∧ 1/2 ≤ tentTable.ReList.getD 1 0) ∧
      (tentTable.ReList.getD 1 0 ≤ 3/2 ∧ 3/2 ≤ tentTable.ReList.getD 2 0) ∧
      ¬ (3/2 ≤ tentTable.ReList.getD 1 0) ∧
      liftCoefficient (updateRe tentProfile (3/2)).active 0 =
        liftCoefficient tentProfile.active 0 := by
  refine ⟨⟨by norm_num [tentTable], by norm_num [tentTable]⟩,
    ⟨by norm_num [tentTable], by norm_num [tentTable]⟩,
    by norm_num [tentTable], ?_⟩
  norm_num [liftCoefficient, updateRe, tentProfile, tentTable,
    interpCoeffLists, interpCoeffList, coeffColumn, interpolate, interpSeg,
    List.range_succ]

/-- A two-Reynolds-number family whose single-angle lift column ramps from 0
to 1, used to instantiate the C2 theorem. -/
def rampTable : MultiReTable :=
  { ReList := [0, 1]
    angleOfAttackList := [0]
    liftCoefficientLists := [[0], [1]]
    dragCoefficientLists := [[0], [0]]
    momentCoefficientLists := [[0], [0]] }

/-- The ramp-column profile initialised at Re = 0. -/
def rampProfile : MultiReProfile :=
  { multi := rampTable, Re := 0, active := interpCoeffLists rampTable 0 }

/-- Concrete instantiation of the C2 theorem: updating the ramp profile from
Re = 0 to Re = 1 re-interpolates the active curve and changes the lift at
the tabulated angle. -/
theorem C2_witness :
    liftCoefficient (updateRe rampProfile 1).active
        (rampTable.angleOfAttackList.getD 0 0) =
      interpolate 1 rampTable.ReList
        (coeffColumn rampTable.liftCoefficientLists 0) ∧
    liftCoefficient (updateRe rampProfile 1).active
        (rampTable.angleOfAttackList.getD 0 0) ≠
      liftCoefficient rampProfile.active
        (rampTable.angleOfAttackList.getD 0 0) := by
  have h := C2_updateRe_reinterpolates_active_curve rampProfile 1 0
    (by norm_num [rampProfile, rampTable]) (by norm_num [rampProfile, rampTable])
    rfl
  refine ⟨h.1, h.2.mpr ?_⟩
  norm_num [rampProfile, rampTable, coeffColumn, interpolate, interpSeg]

/-- An active coefficient list interpolated from a one-entry Reynolds family
is the stored curve itself: the interpolator's degenerate single-element rule
applies at every angle sample. -/
theorem interpCoeffList_single_entry (Re re0 : ℚ) (l : List ℚ) (n : ℕ)
    (hn : l.length = n) : interpCoeffList Re [re0] n [l] = l := by
  subst hn
  unfold interpCoeffList coeffColumn
  simp only [List.map_cons, List.map_nil, interpolate]
  exact map_getD_range l

/-- C3: a multi-Re family holding exactly one Reynolds-number entry
reproduces, at every query angle, exactly the lift, drag and moment results
of the single-Re table built from the same curve data, whatever Reynolds
number is requested. -/
theorem C3_single_entry_multi_equals_single
    (m : MultiReTable) (Re re0 : ℚ) (cl cd cm : List ℚ)
    (hRe : m.ReList = [re0])
    (hcl : m.liftCoefficientLists = [cl])
    (hcd : m.dragCoefficientLists = [cd])
    (hcm : m.momentCoefficientLists = [cm])
    (hcln : cl.length = m.angleOfAttackList.length)
    (hcdn : cd.length = m.angleOfAttackList.length)
    (hcmn : cm.length = m.angleOfAttackList.length) :
    ∀ a : ℚ,
      liftCoefficient (interpCoeffLists m Re) a =
          liftCoefficient ⟨m.angleOfAttackList, cl, cd, cm⟩ a ∧
        dragCoefficient (interpCoeffLists m Re) a =
          dragCoefficient ⟨m.angleOfAttackList, cl, cd, cm⟩ a ∧
        momentCoefficient (interpCoeffLists m Re) a =
          momentCoefficient ⟨m.angleOfAttackList, cl, cd, cm⟩ a := by
  have hl : interpCoeffLists m Re = ⟨m.angleOfAttackList, cl, cd, cm⟩ := by
    unfold interpCoeffLists
    rw [hRe, hcl, hcd, hcm, interpCoeffList_single_entry Re re0 cl _ hcln,
      interpCoeffList_single_entry Re re0 cd _ hcdn,
      interpCoeffList_single_entry Re re0 cm _ hcmn]
  intro a
  rw [hl]
  exact ⟨rfl, rfl, rfl⟩

/-- A one-entry Reynolds family over a two-angle curve, used to instantiate
the C3 theorem. -/
def singleEntryTable : MultiReTable :=
  { ReList := [100]
    angleOfAttackList := [0, 5]
    liftCoefficientLists := [[1, 2]]
    dragCoefficientLists := [[0, 1]]
    momentCoefficientLists := [[3, 4]] }

/-- Concrete instantiation of the C3 theorem at the query angle 2.5°, with a
Reynolds number (42) far from the family's sole entry (100). -/
theorem C3_witness :
    liftCoefficient (interpCoeffLists singleEntryTable 42) (5/2) =
        liftCoefficient ⟨[0, 5], [1, 2], [0, 1], [3, 4]⟩ (5/2) ∧
      dragCoefficient (interpCoeffLists singleEntryTable 42) (5/2) =
        dragCoefficient ⟨[0, 5], [1, 2], [0, 1], [3, 4]⟩ (5/2) ∧
      momentCoefficient (interpCoeffLists singleEntryTable 42) (5/2) =
        momentCoefficient ⟨[0, 5], [1, 2], [0, 1], [3, 4]⟩ (5/2) := by
  have h := C3_single_entry_multi_equals_single singleEntryTable 42 100
    [1, 2] [0, 1] [3, 4] rfl rfl rfl rfl (by norm_num [singleEntryTable])
    (by norm_num [singleEntryTable]) (by norm_num [singleEntryTable]) (5/2)
  exact h

/-- A profile object as produced by construction: either a single-Re table
or a multi-Re profile with its derived active curve. -/
inductive Profile where
  | single : SingleTable → Profile
  | multi : MultiReProfile → Profile

/-- One profile's raw key-value configuration (§6): each field is `none`
when the corresponding dictionary key is absent.  Single mode supplies the
(angle, CL, CD, CM) rows; multi mode supplies the Reynolds-number list and
one 2-D array per coefficient whose rows carry the angle in the first column
and one value per Reynolds number after it (profileData.H lines 155-163). -/
structure RawConfig where
  tableType : Option String
  Re : Option ℚ
  correctRe : Option Bool
  coefficientData : Option (List (ℚ × ℚ × ℚ × ℚ))
  ReListData : Option (List ℚ)
  liftArray : Option (List (List ℚ))
  dragArray : Option (List (List ℚ))
  momentArray : Option (List (List ℚ))

/-- Modelled from the spec: the construction path (the `profileData`
constructor with `readSingleRe`, `readMultiRe`, `readAngleOfAttackList` and
`read2DArray`, profileData.H lines 146-163 and 248-254; implementations
absent).  The selector defaults to "singleRe" (profileData.H line 65);
single mode requires the coefficient-data key; multi mode requires the
Reynolds-number list and the three 2-D arrays, rejects fewer than two
Reynolds-number entries, and rejects a drag or moment array whose row count
differs from the angle axis read from the lift array's first column (§4.1,
§6, §7).  On failure no object is produced. -/
def construct (cfg : RawConfig) : Except String Profile :=
  let tt := cfg.tableType.getD "singleRe"
  if tt = "singleRe" then
    match cfg.coefficientData with
    | none => Except.error "singleRe: coefficient data key missing"
    | some rows =>
        Except.ok (Profile.single
          { angleOfAttackList := rows.map (fun r => r.1)
            liftCoefficientList := rows.map (fun r => r.2.1)
            dragCoefficientList := rows.map (fun r => r.2.2.1)
            momentCoefficientList := rows.map (fun r => r.2.2.2) })
  else if tt = "multiRe" then
    match cfg.ReListData, cfg.liftArray, cfg.dragArray, cfg.momentArray with
    | some res, some clA, some cdA, some cmA =>
        if res.length < 2 then
          Except.error "multiRe: fewer than two Reynolds numbers"
        else if cdA.length ≠ clA.length ∨ cmA.length ≠ clA.length then
          Except.error "multiRe: 2-D array row count mismatches angle axis"
        else
          let Re := cfg.Re.getD 0
          let m : MultiReTable :=
            { ReList := res
              angleOfAttackList := clA.map (fun row => row.getD 0 0)
              liftCoefficientLists := (List.range res.length).map
                (fun k => clA.map (fun row => row.getD (k + 1) 0))
              dragCoefficientLists := (List.range res.length).map
                (fun k => cdA.map (fun row => row.getD (k + 1) 0))
              momentCoefficientLists := (List.range res.length).map
                (fun k => cmA.map (fun row => row.getD (k + 1) 0)) }
          Except.ok (Profile.multi
            { multi := m, Re := Re, active := interpCoeffLists m Re })
    | _, _, _, _ => Except.error "multiRe: required key missing"
  else Except.error "unrecognized table type"

/-- The configuration-error conditions of §4.1/§6/§7: unrecognized
table-type selector, missing required key for the selected mode, fewer than
two Reynolds numbers in multi mode, or a 2-D array whose row count differs
from the angle-axis length. -/
def configError (cfg : RawConfig) : Prop :=
  (cfg.tableType.getD "singleRe" ≠ "singleRe" ∧
      cfg.tableType.getD "singleRe" ≠ "multiRe") ∨
    (cfg.tableType.getD "singleRe" = "singleRe" ∧ cfg.coefficientData = none) ∨
    (cfg.tableType.getD "singleRe" = "multiRe" ∧
      (cfg.ReListData = none ∨ cfg.liftArray = none ∨ cfg.dragArray = none ∨
        cfg.momentArray = none ∨
        (∃ res, cfg.ReListData = some res ∧ res.length < 2) ∨
        (∃ clA cdA cmA, cfg.liftArray = some clA ∧ cfg.dragArray = some cdA ∧
          cfg.momentArray = some cmA ∧
          (cdA.length ≠ clA.length ∨ cmA.length ≠ clA.length))))

/-- C9: construction fails exactly on the configuration errors — an
unrecognized selector, a missing required key, a 2-D row-count mismatch, or
fewer than two Reynolds numbers in multi mode — and succeeds (producing a
usable object) exactly on well-formed input. -/
theorem C9_construction_fails_iff_invalid_config (cfg : RawConfig) :
    ((∃ e, construct cfg = Except.error e) ↔ configError cfg) ∧
      ((∃ p, construct cfg = Except.ok p) ↔ ¬ configError cfg) := by
  obtain ⟨tt, re, cre, cdata, rld, la, da, ma⟩ := cfg
  by_cases h1 : tt.getD "singleRe" = "singleRe"
  · cases cdata with
    | none => simp [construct, configError, h1]
    | some rows => simp [construct, configError, h1]
  · by_cases h2 : tt.getD "singleRe" = "multiRe"
    · cases rld with
      | none => simp [construct, configError, h1, h2]
      | some res =>
        cases la with
        | none => simp [construct, configError, h1, h2]
        | some clA =>
          cases da with
          | none => simp [construct, configError, h1, h2]
          | some cdA =>
            cases ma with
            | none => simp [construct, configError, h1, h2]
            | some cmA =>
              by_cases hr : res.length < 2
              · simp [construct, configError, h1, h2, hr]
              · by_cases hd : cdA.length ≠ clA.length ∨ cmA.length ≠ clA.length
                · simp [construct, configError, h1, h2, hr, hd]
                · simp [construct, configError, h1, h2, hr, hd]
    · simp [construct, configError, h1, h2]

/-- Modelled from the spec: although `interpolate` receives `xOld` and
`yOld` by non-const reference (profileData.H lines 166-171), every query is
specified as a pure computation over the already-loaded tables (§4.2, §5,
§7), so the state-passing embedding returns the result together with the
lists as they stand after the call. -/
def interpolateRef (xNew : ℚ) (xOld yOld : List ℚ) : ℚ × List ℚ × List ℚ :=
  (interpolate xNew xOld yOld, xOld, yOld)

/-- Modelled from the spec: a lift query on a profile instance in
state-passing form — the interpolation result over the active curve together
with the instance as it stands after the call (§4.6, §5). -/
def liftCoefficientRef (s : MultiReProfile) (a : ℚ) : ℚ × MultiReProfile :=
  ((interpolateRef a s.active.angleOfAttackList s.active.liftCoefficientList).1,
    s)

/-- C10: an interpolation query never modifies the lists passed by
reference — after the call `xOld` and `yOld` are what they were before, the
returned value is the pure interpolation result, and a coefficient query
leaves the whole profile instance unchanged. -/
theorem C10_interpolate_frame (xNew : ℚ) (xOld yOld : List ℚ)
    (s : MultiReProfile) :
    (interpolateRef xNew xOld yOld).2.1 = xOld ∧
      (interpolateRef xNew xOld yOld).2.2 = yOld ∧
      (interpolateRef xNew xOld yOld).1 = interpolate xNew xOld yOld ∧
      (liftCoefficientRef s xNew).2 = s :=
  ⟨rfl, rfl, rfl, rfl⟩

end ProfileData
